import Mathlib

/-!
Verification of the S3 batch-retrieval sample (`src/python_sample.py`).

The Python program is shallowly embedded: strings are lists of characters,
the S3 listing is a list of pages, each fetched object is an abstract fetch
result, and the CSV output file is a list of output lines.  Exceptions are
modelled with `Option` / `Except` and explicit crash states.
-/

namespace PySample

/-- Python strings are modelled as lists of characters. -/
abbrev Chars := List Char

/-- Model of Python `str.split(sep)` for a single-character separator:
splits at every occurrence, keeping empty pieces, so the result is always
non-empty. -/
def splitOnChar (c : Char) : Chars → List Chars
  | [] => [[]]
  | x :: xs =>
    let r := splitOnChar c xs
    if x = c then [] :: r
    else (x :: r.headD []) :: r.tail

theorem splitOnChar_ne_nil (c : Char) (xs : Chars) : splitOnChar c xs ≠ [] := by
  cases xs with
  | nil => simp [splitOnChar]
  | cons x xs =>
    simp only [splitOnChar]
    by_cases hx : x = c <;> simp [hx]

theorem splitOnChar_of_not_mem (c : Char) (xs : Chars) (h : c ∉ xs) :
    splitOnChar c xs = [xs] := by
  induction xs with
  | nil => rfl
  | cons x xs ih =>
    have hx : ¬ x = c := fun he => h (he ▸ List.mem_cons_self x xs)
    have hxs : c ∉ xs := fun hm => h (List.mem_cons_of_mem x hm)
    simp [splitOnChar, hx, ih hxs]

theorem splitOnChar_append (c : Char) (a b : Chars) (ha : c ∉ a) :
    splitOnChar c (a ++ c :: b) = a :: splitOnChar c b := by
  induction a with
  | nil => simp [splitOnChar]
  | cons x a ih =>
    have hx : ¬ x = c := fun he => ha (he ▸ List.mem_cons_self x a)
    have ha2 : c ∉ a := fun hm => ha (List.mem_cons_of_mem x hm)
    simp [splitOnChar, hx, ih ha2, splitOnChar_ne_nil]

theorem splitOnChar_length_ge_two (c : Char) (xs : Chars) (h : c ∈ xs) :
    2 ≤ (splitOnChar c xs).length := by
  induction xs with
  | nil => cases h
  | cons x xs ih =>
    simp only [splitOnChar]
    by_cases hx : x = c
    · have : (splitOnChar c xs).length ≥ 1 :=
        List.length_pos.mpr (splitOnChar_ne_nil c xs)
      simp [hx]; omega
    · have hmem : c ∈ xs := by
        cases List.mem_cons.mp h with
        | inl he => exact absurd he.symm hx
        | inr hm => exact hm
      have h2 := ih hmem
      have hne := splitOnChar_ne_nil c xs
      simp only [if_neg hx, List.length_cons, List.length_tail]
      omega

/-- Model of `os.path.basename`: the final `/`-separated component. -/
def basename (xs : Chars) : Chars := (splitOnChar '/' xs).getLastD []

theorem getLastD_splitOnChar_append (c : Char) (xs ys : Chars) :
    (splitOnChar c (xs ++ c :: ys)).getLastD [] = (splitOnChar c ys).getLastD [] := by
  induction xs with
  | nil =>
    show (splitOnChar c (c :: ys)).getLastD [] = _
    simp only [splitOnChar, if_true, reduceIte]
    rw [List.getLastD_cons]
  | cons x xs ih =>
    simp only [List.cons_append, splitOnChar]
    by_cases hx : x = c
    · rw [if_pos hx, List.getLastD_cons]; exact ih
    · rw [if_neg hx]
      have hmem : c ∈ xs ++ c :: ys := List.mem_append_right _ (List.mem_cons_self c ys)
      have hlen := splitOnChar_length_ge_two c (xs ++ c :: ys) hmem
      cases hr : splitOnChar c (xs ++ c :: ys) with
      | nil => exact absurd hr (splitOnChar_ne_nil c _)
      | cons hd tl =>
        cases tl with
        | nil => rw [hr] at hlen; simp at hlen
        | cons t1 t2 =>
          rw [hr] at ih
          rw [List.getLastD_cons] at ih ⊢
          simpa using ih

theorem basename_prefix (pfx base : Chars) (h : '/' ∉ base) :
    basename (pfx ++ '/' :: base) = base := by
  unfold basename
  rw [getLastD_splitOnChar_append, splitOnChar_of_not_mem _ _ h]
  rfl

/-- Dot-joining of string pieces, used to model the part of the string kept
by `rsplit`. -/
def joinDots : List Chars → Chars
  | [] => []
  | [x] => x
  | x :: y :: t => x ++ '.' :: joinDots (y :: t)

/-- Model of `filename.rsplit('.', 2)[0]`: everything before the last
(up to) two dot-separated components. -/
def stripTwoExts (xs : Chars) : Chars :=
  let parts := splitOnChar '.' xs
  joinDots (parts.take (parts.length - min 2 (parts.length - 1)))

theorem stripTwoExts_spec (a b c : Chars) (ha : '.' ∉ a) (hb : '.' ∉ b)
    (hc : '.' ∉ c) : stripTwoExts (a ++ '.' :: (b ++ '.' :: c)) = a := by
  unfold stripTwoExts
  rw [splitOnChar_append _ _ _ ha, splitOnChar_append _ _ _ hb,
    splitOnChar_of_not_mem _ _ hc]
  rfl

/-- Numeric value of a digit string, as computed by Python `int`. -/
def digitsVal (xs : Chars) : Nat :=
  xs.foldl (fun a c => a * 10 + (c.toNat - 48)) 0

/-- Model of Python `int(s)` on an unsigned token: `None` models the
`ValueError` raised on an empty or non-digit string. -/
def parsePyNat (xs : Chars) : Option Nat :=
  if xs.isEmpty then none
  else if xs.all Char.isDigit then some (digitsVal xs) else none

/-- Model of Python `int(s)` including an optional single leading sign. -/
def parsePyInt (xs : Chars) : Option Int :=
  match xs with
  | [] => none
  | c :: _ =>
    if c = '+' then (parsePyNat xs.tail).map (fun n => (n : Int))
    else if c = '-' then (parsePyNat xs.tail).map (fun n => -(n : Int))
    else (parsePyNat xs).map (fun n => (n : Int))

/-- The token is a non-empty digit string of value `v`. -/
def parsesNat (xs : Chars) (v : Nat) : Bool :=
  !xs.isEmpty && xs.all Char.isDigit && (digitsVal xs == v)

theorem parsePyInt_of_parsesNat (xs : Chars) (v : Nat) (h : parsesNat xs v = true) :
    parsePyInt xs = some (v : Int) := by
  unfold parsesNat at h
  simp only [Bool.and_eq_true, Bool.not_eq_true', beq_iff_eq] at h
  obtain ⟨⟨hne, hall⟩, hval⟩ := h
  cases xs with
  | nil => simp [List.isEmpty] at hne
  | cons c rest =>
    have hcd : c.isDigit = true := by
      have := List.all_eq_true.mp hall c (List.mem_cons_self c rest)
      simpa using this
    have hplus : ¬ c = '+' := by
      intro he; rw [he] at hcd; exact absurd hcd (by decide)
    have hminus : ¬ c = '-' := by
      intro he; rw [he] at hcd; exact absurd hcd (by decide)
    simp [parsePyInt, hplus, hminus, parsePyNat, hne, hall, hval]

/-- Gregorian leap-year test (as in CPython's `datetime`). -/
def isLeap (y : Nat) : Bool := y % 4 == 0 && (y % 100 != 0 || y % 400 == 0)

/-- Days in month `m` of year `y` (months are 1-based). -/
def daysInMonth (y m : Nat) : Nat :=
  if m = 2 then (if isLeap y then 29 else 28)
  else if m = 4 ∨ m = 6 ∨ m = 9 ∨ m = 11 then 30
  else 31

/-- Number of days before January 1st of year `y` (proleptic Gregorian,
ordinal day 1 is 0001-01-01), as in CPython's `_days_before_year`. -/
def daysBeforeYear (y : Nat) : Nat :=
  365 * (y - 1) + (y - 1) / 4 - (y - 1) / 100 + (y - 1) / 400

/-- Number of days in year `y` before the first of month `m`. -/
def daysBeforeMonth (y m : Nat) : Nat :=
  (List.range (m - 1)).foldl (fun acc i => acc + daysInMonth y (i + 1)) 0

/-- Proleptic-Gregorian ordinal of a date (0001-01-01 is 1). -/
def toOrdinal (y m d : Nat) : Nat := daysBeforeYear y + daysBeforeMonth y m + d

/-- UTC epoch seconds of a wall-clock datetime, exactly as
`datetime(...).replace(tzinfo=pytz.utc).timestamp()` computes it
(719163 is the ordinal of 1970-01-01). -/
def epochOf (y m d h mi s : Nat) : Int :=
  86400 * ((toOrdinal y m d : Int) - 719163) + 3600 * (h : Int) + 60 * (mi : Int) + (s : Int)

/-- Model of `datetime(year, month, day, hour, minute, second)` followed by
`.replace(tzinfo=pytz.utc).timestamp()`: validates the component ranges the
`datetime` constructor enforces (`ValueError`, modelled as `none`, otherwise)
and yields the UTC epoch seconds. -/
def datetimeEpoch (y mo d h mi s : Int) : Option Int :=
  if 1 ≤ y ∧ y ≤ 9999 ∧ 1 ≤ mo ∧ mo ≤ 12 ∧ 1 ≤ d ∧
      d ≤ (daysInMonth y.toNat mo.toNat : Int) ∧
      0 ≤ h ∧ h ≤ 23 ∧ 0 ≤ mi ∧ mi ≤ 59 ∧ 0 ≤ s ∧ s ≤ 59 then
    some (epochOf y.toNat mo.toNat d.toNat h.toNat mi.toNat s.toNat)
  else none

theorem datetimeEpoch_natCast (y mo d h mi s : Nat)
    (hy : 1 ≤ y ∧ y ≤ 9999) (hmo : 1 ≤ mo ∧ mo ≤ 12)
    (hd : 1 ≤ d ∧ d ≤ daysInMonth y mo)
    (hh : h ≤ 23) (hmi : mi ≤ 59) (hsec : s ≤ 59) :
    datetimeEpoch (y : Int) (mo : Int) (d : Int) (h : Int) (mi : Int) (s : Int) =
      some (epochOf y mo d h mi s) := by
  unfold datetimeEpoch
  simp only [Int.toNat_natCast]
  split
  · rfl
  · rename_i hcon
    exact absurd
      ⟨by exact_mod_cast hy.1, by exact_mod_cast hy.2, by exact_mod_cast hmo.1,
       by exact_mod_cast hmo.2, by exact_mod_cast hd.1, by exact_mod_cast hd.2,
       Int.natCast_nonneg h, by exact_mod_cast hh, Int.natCast_nonneg mi,
       by exact_mod_cast hmi, Int.natCast_nonneg s, by exact_mod_cast hsec⟩ hcon

/-- Model of `get_last_timestamp` (python_sample.py lines 25-31).
`none` models the `ValueError` raised on a malformed key: a basename that
does not split into exactly three underscore tokens, date/time parts that
do not split into three `-` tokens, non-integer components, or components
out of `datetime`'s valid ranges. -/
def get_last_timestamp (filename : Chars) : Option Int :=
  let stem := stripTwoExts (basename filename)
  match splitOnChar '_' stem with
  | [dateTok, timeTok, _] =>
    match splitOnChar '-' dateTok, splitOnChar '-' timeTok with
    | [ys, ms, ds], [hs, mis, ss] =>
      match parsePyInt ys, parsePyInt ms, parsePyInt ds,
            parsePyInt hs, parsePyInt mis, parsePyInt ss with
      | some y, some mo, some d, some h, some mi, some s =>
        datetimeEpoch y mo d h mi s
      | _, _, _, _, _, _ => none
    | _, _ => none
  | _ => none

example : get_last_timestamp ("logs/2024-01-01_00-00-00_a.json.gz".toList) =
    some 1704067200 := by decide

example : get_last_timestamp ("foo.json.gz".toList) = none := by decide

theorem parsesNat_all (xs : Chars) (v : Nat) (h : parsesNat xs v = true) :
    xs.all Char.isDigit = true := by
  unfold parsesNat at h
  simp only [Bool.and_eq_true] at h
  exact h.1.2

theorem digit_not_mem (xs : Chars) (hall : xs.all Char.isDigit = true)
    (c : Char) (hc : c.isDigit = false) : c ∉ xs := by
  intro hm
  have h2 := List.all_eq_true.mp hall c hm
  rw [hc] at h2
  exact Bool.false_ne_true h2

/-- A key following the archive naming convention
`<prefix>/<YYYY-MM-DD>_<HH-MM-SS>_<discriminator>.<ext1>.<ext2>`, with each
date/time component given as its own token. -/
def mkConvKey (pfx ys ms ds hs mis ss disc e1 e2 : Chars) : Chars :=
  let dTok := ys ++ '-' :: (ms ++ '-' :: ds)
  let tTok := hs ++ '-' :: (mis ++ '-' :: ss)
  let stem := dTok ++ '_' :: (tTok ++ '_' :: disc)
  pfx ++ '/' :: (stem ++ '.' :: (e1 ++ '.' :: e2))

/-- C5: key-clock correctness.  For every key whose basename matches the
naming convention `<YYYY-MM-DD>_<HH-MM-SS>_<discriminator>.<ext1>.<ext2>`
(digit date/time tokens within `datetime`'s valid ranges),
`get_last_timestamp` returns exactly the UTC epoch-seconds value encoded by
the date and time tokens, independent of the leading prefix path `pfx` and
of the two trailing extensions `e1`, `e2`. -/
theorem c5_keyclock_correct (pfx ys ms ds hs mis ss disc e1 e2 : Chars)
    (y mo d h mi s : Nat)
    (hys : parsesNat ys y = true) (hms : parsesNat ms mo = true)
    (hds : parsesNat ds d = true) (hhs : parsesNat hs h = true)
    (hmis : parsesNat mis mi = true) (hss : parsesNat ss s = true)
    (hdisc : '/' ∉ disc ∧ '_' ∉ disc ∧ '.' ∉ disc)
    (he1 : '/' ∉ e1 ∧ '.' ∉ e1) (he2 : '/' ∉ e2 ∧ '.' ∉ e2)
    (hy : 1 ≤ y ∧ y ≤ 9999) (hmo : 1 ≤ mo ∧ mo ≤ 12)
    (hd : 1 ≤ d ∧ d ≤ daysInMonth y mo)
    (hh : h ≤ 23) (hmi : mi ≤ 59) (hsec : s ≤ 59) :
    get_last_timestamp (mkConvKey pfx ys ms ds hs mis ss disc e1 e2) =
      some (epochOf y mo d h mi s) := by
  have tok_not : ∀ xs : Chars, ∀ v : Nat, parsesNat xs v = true →
      '/' ∉ xs ∧ '_' ∉ xs ∧ '.' ∉ xs ∧ '-' ∉ xs := by
    intro xs v hp
    have hall := parsesNat_all xs v hp
    exact ⟨digit_not_mem xs hall _ (by decide), digit_not_mem xs hall _ (by decide),
      digit_not_mem xs hall _ (by decide), digit_not_mem xs hall _ (by decide)⟩
  obtain ⟨ys1, ys2, ys3, ys4⟩ := tok_not ys y hys
  obtain ⟨ms1, ms2, ms3, ms4⟩ := tok_not ms mo hms
  obtain ⟨ds1, ds2, ds3, ds4⟩ := tok_not ds d hds
  obtain ⟨hs1, hs2, hs3, hs4⟩ := tok_not hs h hhs
  obtain ⟨mis1, mis2, mis3, mis4⟩ := tok_not mis mi hmis
  obtain ⟨ss1, ss2, ss3, ss4⟩ := tok_not ss s hss
  have hne1 : ('_' : Char) ≠ '-' := by decide
  have hne2 : ('.' : Char) ≠ '-' := by decide
  have hne3 : ('.' : Char) ≠ '_' := by decide
  have hne4 : ('/' : Char) ≠ '-' := by decide
  have hne5 : ('/' : Char) ≠ '_' := by decide
  have hne6 : ('/' : Char) ≠ '.' := by decide
  have hDu : '_' ∉ ys ++ '-' :: (ms ++ '-' :: ds) := by
    simp [List.mem_append, List.mem_cons, ys2, ms2, ds2, hne1]
  have hTu : '_' ∉ hs ++ '-' :: (mis ++ '-' :: ss) := by
    simp [List.mem_append, List.mem_cons, hs2, mis2, ss2, hne1]
  have hSd : '.' ∉ (ys ++ '-' :: (ms ++ '-' :: ds)) ++ '_' ::
      ((hs ++ '-' :: (mis ++ '-' :: ss)) ++ '_' :: disc) := by
    simp [List.mem_append, List.mem_cons, ys3, ms3, ds3, hs3, mis3, ss3,
      hdisc.2.2, hne2, hne3]
  have hBs : '/' ∉ ((ys ++ '-' :: (ms ++ '-' :: ds)) ++ '_' ::
      ((hs ++ '-' :: (mis ++ '-' :: ss)) ++ '_' :: disc)) ++ '.' ::
      (e1 ++ '.' :: e2) := by
    simp [List.mem_append, List.mem_cons, ys1, ms1, ds1, hs1, mis1, ss1,
      hdisc.1, he1.1, he2.1, hne4, hne5, hne6]
  have hbase := basename_prefix pfx _ hBs
  have hstrip := stripTwoExts_spec _ e1 e2 hSd he1.2 he2.2
  have hsplitU : splitOnChar '_' ((ys ++ '-' :: (ms ++ '-' :: ds)) ++ '_' ::
      ((hs ++ '-' :: (mis ++ '-' :: ss)) ++ '_' :: disc)) =
      [ys ++ '-' :: (ms ++ '-' :: ds), hs ++ '-' :: (mis ++ '-' :: ss), disc] := by
    rw [splitOnChar_append _ _ _ hDu, splitOnChar_append _ _ _ hTu,
      splitOnChar_of_not_mem _ _ hdisc.2.1]
  have hsplitD : splitOnChar '-' (ys ++ '-' :: (ms ++ '-' :: ds)) = [ys, ms, ds] := by
    rw [splitOnChar_append _ _ _ ys4, splitOnChar_append _ _ _ ms4,
      splitOnChar_of_not_mem _ _ ds4]
  have hsplitT : splitOnChar '-' (hs ++ '-' :: (mis ++ '-' :: ss)) = [hs, mis, ss] := by
    rw [splitOnChar_append _ _ _ hs4, splitOnChar_append _ _ _ mis4,
      splitOnChar_of_not_mem _ _ ss4]
  show get_last_timestamp (pfx ++ '/' :: _) = _
  unfold get_last_timestamp
  rw [hbase, hstrip]
  simp only [hsplitU, hsplitD, hsplitT, parsePyInt_of_parsesNat ys y hys,
    parsePyInt_of_parsesNat ms mo hms, parsePyInt_of_parsesNat ds d hds,
    parsePyInt_of_parsesNat hs h hhs, parsePyInt_of_parsesNat mis mi hmis,
    parsePyInt_of_parsesNat ss s hss]
  exact datetimeEpoch_natCast y mo d h mi s hy hmo hd hh hmi hsec

/-- C5 witness: the theorem applied to the concrete key
`logs/2024-01-01_00-00-00_a.json.gz`. -/
theorem c5_witness :
    get_last_timestamp (mkConvKey "logs".toList "2024".toList "01".toList
      "01".toList "00".toList "00".toList "00".toList ['a']
      "json".toList "gz".toList) = some (epochOf 2024 1 1 0 0 0) :=
  c5_keyclock_correct "logs".toList "2024".toList "01".toList "01".toList
    "00".toList "00".toList "00".toList ['a'] "json".toList "gz".toList
    2024 1 1 0 0 0 (by decide) (by decide) (by decide) (by decide) (by decide)
    (by decide) (by decide) (by decide) (by decide) (by decide) (by decide)
    (by decide) (by decide) (by decide) (by decide)

/-- Uncaught Python exceptions a run can raise. -/
inductive PyErr where
  | valueError
  | keyError
  | nameError
  | indexError
  | osError
  | listingExhausted
  deriving DecidableEq

/-- One `list_objects_v2` response: `contents = none` models a response
without a `Contents` field, `hasNext` the presence of
`NextContinuationToken`. -/
structure Page where
  contents : Option (List Chars)
  hasNext : Bool
  deriving DecidableEq

/-- The key can be decoded by the key clock. -/
def decodable (k : Chars) : Bool := (get_last_timestamp k).isSome

/-- The pruning condition of `get_s3_keys` (line 42): a key is kept when its
decoded timestamp is not before `start_time`. -/
def keepKey (start : Int) (k : Chars) : Bool :=
  !decide ((get_last_timestamp k).getD 0 < start)

/-- Body of the listing loop over one page's keys (lines 39-44): skip a key
whose decoded timestamp precedes `start_time`, append the rest; an
undecodable key raises `ValueError` out of the whole function. -/
def pruneKeys (start : Int) : List Chars → Except PyErr (List Chars)
  | [] => Except.ok []
  | k :: ks =>
    match get_last_timestamp k with
    | none => Except.error PyErr.valueError
    | some t =>
      match pruneKeys start ks with
      | Except.error e => Except.error e
      | Except.ok rest => Except.ok (if t < start then rest else k :: rest)

/-- The pagination loop of `get_s3_keys` (lines 37-48): accumulate kept keys
page by page, stop after the first page without a continuation token, fail
with `KeyError` on a page without `Contents`.  Running off the end of the
page list is a modelling artifact (`listingExhausted`), excluded by
well-formed listings. -/
def listLoop (start : Int) : List Page → List Chars → Except PyErr (List Chars)
  | [], _ => Except.error PyErr.listingExhausted
  | p :: rest, acc =>
    match p.contents with
    | none => Except.error PyErr.keyError
    | some ks =>
      match pruneKeys start ks with
      | Except.error e => Except.error e
      | Except.ok kept =>
        if p.hasNext then listLoop start rest (acc ++ kept)
        else Except.ok (acc ++ kept)

/-- Model of `get_s3_keys` (lines 33-49); the S3 client is abstracted as the
sequence of pages the paginated listing returns. -/
def get_s3_keys (pages : List Page) (start : Int) : Except PyErr (List Chars) :=
  listLoop start pages []

/-- A listing is well formed when every page carries a `Contents` field and
exactly its last page lacks a continuation token. -/
def wfListing : List Page → Prop
  | [] => False
  | [p] => p.contents.isSome = true ∧ p.hasNext = false
  | p :: q :: rest => p.contents.isSome = true ∧ p.hasNext = true ∧ wfListing (q :: rest)

/-- All keys returned by the object store, in listing order. -/
def listedKeys (pages : List Page) : List Chars :=
  (pages.map (fun p => p.contents.getD [])).join

theorem pruneKeys_decodable (start : Int) (ks : List Chars)
    (h : ∀ k ∈ ks, decodable k = true) :
    pruneKeys start ks = Except.ok (ks.filter (keepKey start)) := by
  induction ks with
  | nil => rfl
  | cons k ks ih =>
    obtain ⟨t, ht⟩ := Option.isSome_iff_exists.mp (h k (List.mem_cons_self k ks))
    rw [pruneKeys, ht, ih (fun x hx => h x (List.mem_cons_of_mem _ hx))]
    by_cases hlt : t < start <;> simp [List.filter_cons, keepKey, ht, hlt]

theorem pruneKeys_undecodable (start : Int) (g : List Chars) (bad : Chars)
    (r : List Chars) (hg : ∀ k ∈ g, decodable k = true)
    (hbad : get_last_timestamp bad = none) :
    pruneKeys start (g ++ bad :: r) = Except.error PyErr.valueError := by
  induction g with
  | nil => simp [pruneKeys, hbad]
  | cons k g ih =>
    obtain ⟨t, ht⟩ := Option.isSome_iff_exists.mp (hg k (List.mem_cons_self k g))
    rw [List.cons_append, pruneKeys, ht,
      ih (fun x hx => hg x (List.mem_cons_of_mem _ hx))]

theorem listLoop_wf (start : Int) (pages : List Page) (hwf : wfListing pages)
    (hdec : ∀ k ∈ listedKeys pages, decodable k = true) :
    ∀ acc, listLoop start pages acc =
      Except.ok (acc ++ (listedKeys pages).filter (keepKey start)) := by
  induction pages with
  | nil => cases hwf
  | cons p rest ih =>
    intro acc
    cases rest with
    | nil =>
      obtain ⟨hsome, hnext⟩ := hwf
      obtain ⟨ks, hks⟩ := Option.isSome_iff_exists.mp hsome
      have hdec2 : ∀ k ∈ ks, decodable k = true := by
        intro k hk
        exact hdec k (by simp [listedKeys, hks, hk])
      simp [listLoop, hks, pruneKeys_decodable start ks hdec2, hnext,
        listedKeys]
    | cons q rest2 =>
      obtain ⟨hsome, hnext, hwf2⟩ := hwf
      obtain ⟨ks, hks⟩ := Option.isSome_iff_exists.mp hsome
      have hdec2 : ∀ k ∈ ks, decodable k = true := by
        intro k hk
        exact hdec k (by simp [listedKeys, hks, hk])
      have hdecrest : ∀ k ∈ listedKeys (q :: rest2), decodable k = true := by
        intro k hk
        apply hdec k
        simp only [listedKeys, List.map_cons, List.join, hks] at hk ⊢
        exact List.mem_append_right _ hk
      rw [listLoop, hks]
      simp only [pruneKeys_decodable start ks hdec2, hnext, if_pos]
      rw [ih hwf2 hdecrest (acc ++ ks.filter (keepKey start))]
      simp [listedKeys, hks, List.filter_append, List.append_assoc]

/-- C6: pruning postcondition.  For a well-formed listing all of whose keys
decode, `get_s3_keys` returns exactly the listed keys whose decoded embedded
end-time is `≥ windowStart`, in the object store's listing order (a `filter`
of the listed keys: no reordering, no deduplication). -/
theorem c6_pruning_postcondition (pages : List Page) (start : Int)
    (hwf : wfListing pages)
    (hdec : ∀ k ∈ listedKeys pages, decodable k = true) :
    get_s3_keys pages start =
      Except.ok ((listedKeys pages).filter (keepKey start)) :=
  listLoop_wf start pages hwf hdec []

/-- C6 witness: a two-page listing with one stale key; only the fresh keys
survive, in order. -/
theorem c6_witness :
    get_s3_keys
      [⟨some ["a/2024-01-01_00-00-00_x.json.gz".toList,
              "a/2024-01-02_00-00-00_x.json.gz".toList], true⟩,
       ⟨some ["a/2024-01-03_00-00-00_x.json.gz".toList], false⟩]
      1704153600 =
      Except.ok ["a/2024-01-02_00-00-00_x.json.gz".toList,
                 "a/2024-01-03_00-00-00_x.json.gz".toList] := by
  rw [c6_pruning_postcondition _ 1704153600 (by simp [wfListing]) (by decide)]
  rfl

/-- C2 counterexample: the malformed key `foo.json.gz` (its basename does
not split into three underscore tokens) makes `decode` fail, but the
pruning step does **not** retain it: the `ValueError` propagates out of
`get_s3_keys`, so no candidate set is produced at all. -/
theorem c2_malformed_key_cex :
    get_last_timestamp ("foo.json.gz".toList) = none ∧
    get_s3_keys [⟨some ["foo.json.gz".toList], false⟩] 0 =
      Except.error PyErr.valueError :=
  ⟨by decide, rfl⟩

/-- C2 (amended): for every listed key whose basename does not match the
naming convention, `decode` fails with a structural `ValueError`; if such a
key appears in a fetched page the error propagates uncaught out of
`get_s3_keys`, aborting the whole listing — the key is neither retained in
a candidate set nor silently dropped. -/
theorem c2_malformed_key_aborts_listing (g : List Chars) (bad : Chars)
    (r : List Chars) (tok : Bool) (more : List Page) (start : Int)
    (hg : ∀ k ∈ g, decodable k = true)
    (hbad : get_last_timestamp bad = none) :
    get_s3_keys (⟨some (g ++ bad :: r), tok⟩ :: more) start =
      Except.error PyErr.valueError := by
  rw [get_s3_keys, listLoop]
  simp [pruneKeys_undecodable start g bad r hg hbad]

/-- C2 witness: one well-formed key followed by the malformed key
`foo.json.gz` aborts the listing with `ValueError`. -/
theorem c2_witness :
    get_s3_keys [⟨some ["a/2024-01-01_00-00-00_x.json.gz".toList,
      "foo.json.gz".toList], false⟩] 0 = Except.error PyErr.valueError :=
  c2_malformed_key_aborts_listing ["a/2024-01-01_00-00-00_x.json.gz".toList]
    ("foo.json.gz".toList) [] false [] 0 (by decide) (by decide)

theorem listLoop_missing_contents (start : Int) (good : List Page)
    (bad : Page) (rest : List Page)
    (hgood : ∀ p ∈ good, p.contents.isSome = true ∧ p.hasNext = true)
    (hdec : ∀ k ∈ listedKeys good, decodable k = true)
    (hbad : bad.contents = none) :
    ∀ acc, listLoop start (good ++ bad :: rest) acc =
      Except.error PyErr.keyError := by
  induction good with
  | nil =>
    intro acc
    rw [List.nil_append, listLoop, hbad]
  | cons p good2 ih =>
    intro acc
    obtain ⟨hsome, hnext⟩ := hgood p (List.mem_cons_self p good2)
    obtain ⟨ks, hks⟩ := Option.isSome_iff_exists.mp hsome
    have hdec2 : ∀ k ∈ ks, decodable k = true := by
      intro k hk
      exact hdec k (by simp [listedKeys, hks, hk])
    have hgood2 : ∀ p2 ∈ good2, p2.contents.isSome = true ∧ p2.hasNext = true :=
      fun p2 hp2 => hgood p2 (List.mem_cons_of_mem _ hp2)
    have hdecrest : ∀ k ∈ listedKeys good2, decodable k = true := by
      intro k hk
      apply hdec k
      simp only [listedKeys, List.map_cons, List.join, hks] at hk ⊢
      exact List.mem_append_right _ hk
    rw [List.cons_append, listLoop, hks]
    simp only [pruneKeys_decodable start ks hdec2, hnext, if_pos]
    exact ih hgood2 hdecrest _

/-- C10: `get_s3_keys` assumes every fetched listing page is non-empty.  If
a page carries no `Contents` field, the whole listing aborts with an
uncaught `KeyError` instead of returning the candidate set accumulated so
far. -/
theorem c10_missing_contents_keyerror (good : List Page) (bad : Page)
    (rest : List Page) (start : Int)
    (hgood : ∀ p ∈ good, p.contents.isSome = true ∧ p.hasNext = true)
    (hdec : ∀ k ∈ listedKeys good, decodable k = true)
    (hbad : bad.contents = none) :
    get_s3_keys (good ++ bad :: rest) start = Except.error PyErr.keyError :=
  listLoop_missing_contents start good bad rest hgood hdec hbad []

/-- C10 witness: a good first page followed by a `Contents`-less page (an
empty prefix continuation) aborts the listing with `KeyError`. -/
theorem c10_witness :
    get_s3_keys [⟨some ["a/2024-01-01_00-00-00_x.json.gz".toList], true⟩,
      ⟨none, false⟩] 0 = Except.error PyErr.keyError :=
  c10_missing_contents_keyerror
    [⟨some ["a/2024-01-01_00-00-00_x.json.gz".toList], true⟩]
    ⟨none, false⟩ [] 0 (by decide) (by decide) (by decide)

/-- One parsed event record: its `Timestamp` and `Type` values (other
columns are irrelevant to the filter and are omitted). -/
structure Rec where
  ts : Int
  ty : String
  deriving DecidableEq

/-- The DataFrame produced by `pd.read_json(..., lines=True)`: whether the
`Timestamp` and `Type` columns exist, and the rows in stream order. -/
structure DF where
  hasTs : Bool
  hasTy : Bool
  rows : List Rec
  deriving DecidableEq

/-- Outcome of fetching and decoding one key, abstracting
`client.get_object` + `gzip.open(...).read()` + `pd.read_json`:
`clientError` is a `botocore` `ClientError`, `gzipFail` an `OSError` from
decompression, `jsonFail` a `ValueError` from `read_json`, and `parsed` a
successfully parsed DataFrame. -/
inductive FetchResult where
  | clientError
  | gzipFail
  | jsonFail
  | parsed (df : DF)
  deriving DecidableEq

/-- One line of `output.csv`: the header row or one record's values. -/
inductive OutLine where
  | header
  | data (r : Rec)
  deriving DecidableEq

/-- `df.to_csv(f_output, header=f_output.tell() == 0, index=False)` guarded
by `if not df.empty` (lines 76-77): a non-empty batch writes the header
first iff nothing has been written yet. -/
def writeBatch (rows : List Rec) (out : List OutLine) : List OutLine :=
  if rows.isEmpty then out
  else if out.isEmpty then OutLine.header :: rows.map OutLine.data
  else out ++ rows.map OutLine.data

/-- Result of the per-key body of `retrieve_objects` (lines 62-83). -/
inductive StepOut where
  | next (out : List OutLine)
  | stop (out : List OutLine)
  | crash (e : PyErr) (out : List OutLine)
  deriving DecidableEq

/-- The hardcoded wanted event type of the filter (line 71). -/
def wantedType : String := "OrderTradeReportEvent"

/-- One iteration of the key loop of `retrieve_objects` (lines 61-83),
including its exception handlers: `ClientError` and the `ValueError` of
`read_json` are caught, logged and skipped; an `OSError` from gzip is not
caught; a `KeyError` (missing `Timestamp`/`Type` column) is caught but its
handler evaluates the undefined name `line` (line 81) and crashes the run
with a `NameError`; `.iloc` on an empty frame raises an uncaught
`IndexError`. -/
def processKey (fetch : Chars → FetchResult) (start endT : Int)
    (out : List OutLine) (k : Chars) : StepOut :=
  match fetch k with
  | FetchResult.clientError => StepOut.next out
  | FetchResult.gzipFail => StepOut.crash PyErr.osError out
  | FetchResult.jsonFail => StepOut.next out
  | FetchResult.parsed df =>
    if df.hasTs = false then StepOut.crash PyErr.nameError out
    else
      match df.rows.getLast?, df.rows.head? with
      | some lastR, some firstR =>
        if lastR.ts < start then StepOut.next out
        else if firstR.ts > endT then StepOut.stop out
        else if df.hasTy = false then StepOut.crash PyErr.nameError out
        else
          StepOut.next (writeBatch
            ((df.rows.filter (fun r => r.ty == wantedType)).filter
              (fun r => decide (start ≤ r.ts) && decide (r.ts ≤ endT))) out)
      | _, _ => StepOut.crash PyErr.indexError out

/-- Final state of a run of the key loop: completed normally (exhausted or
broke out early), or aborted by an uncaught exception.  Either way the rows
written so far persist in `output.csv`. -/
inductive RunResult where
  | finished (out : List OutLine)
  | aborted (e : PyErr) (out : List OutLine)
  deriving DecidableEq

/-- The `for key in keys` loop (lines 61-83). -/
def drain (fetch : Chars → FetchResult) (start endT : Int) :
    List Chars → List OutLine → RunResult
  | [], out => RunResult.finished out
  | k :: ks, out =>
    match processKey fetch start endT out k with
    | StepOut.next out2 => drain fetch start endT ks out2
    | StepOut.stop out2 => RunResult.finished out2
    | StepOut.crash e out2 => RunResult.aborted e out2

/-- `output.csv` content after run: the file the run leaves behind. -/
def RunResult.output : RunResult → List OutLine
  | RunResult.finished o => o
  | RunResult.aborted _ o => o

/-- Lines 56-58: the output file is opened with mode `w` and immediately
closed, discarding any previous content. -/
def truncateFile (_prev : List OutLine) : List OutLine := []

/-- Model of `retrieve_objects` (lines 51-83): truncate `output.csv`, then
drain the candidate keys in order. -/
def retrieve_objects (fetch : Chars → FetchResult) (start endT : Int)
    (keys : List Chars) (prevFile : List OutLine) : RunResult :=
  drain fetch start endT keys (truncateFile prevFile)

/-- C1 (code defect): an object whose parsed record set lacks the
`Timestamp` column raises a `KeyError`; its handler evaluates the undefined
name `line` and the resulting `NameError` aborts the whole run, so the
subsequent key — which alone would have contributed a data row — is never
drained.  This contradicts the claimed log-and-continue isolation. -/
theorem c1_missing_timestamp_field_aborts_run :
    retrieve_objects
      (fun k => if k = ['b'] then FetchResult.parsed ⟨false, true, [⟨5, "x"⟩]⟩
        else FetchResult.parsed ⟨true, true, [⟨5, wantedType⟩]⟩)
      0 10 [['b'], ['g']] [] = RunResult.aborted PyErr.nameError [] ∧
    retrieve_objects
      (fun k => if k = ['b'] then FetchResult.parsed ⟨false, true, [⟨5, "x"⟩]⟩
        else FetchResult.parsed ⟨true, true, [⟨5, wantedType⟩]⟩)
      0 10 [['g']] [] =
      RunResult.finished [OutLine.header, OutLine.data ⟨5, wantedType⟩] :=
  ⟨rfl, rfl⟩

theorem mem_writeBatch (r : Rec) (rows : List Rec) (out : List OutLine)
    (h : OutLine.data r ∈ writeBatch rows out) :
    OutLine.data r ∈ out ∨ r ∈ rows := by
  unfold writeBatch at h
  by_cases h1 : rows.isEmpty
  · rw [if_pos h1] at h; exact Or.inl h
  · rw [if_neg h1] at h
    by_cases h2 : out.isEmpty
    · rw [if_pos h2] at h
      rcases List.mem_cons.mp h with h3 | h3
      · exact absurd h3 (by simp)
      · rw [List.mem_map] at h3
        obtain ⟨x, hx, he⟩ := h3
        right
        cases he
        exact hx
    · rw [if_neg h2] at h
      rcases List.mem_append.mp h with h3 | h3
      · exact Or.inl h3
      · rw [List.mem_map] at h3
        obtain ⟨x, hx, he⟩ := h3
        right
        cases he
        exact hx

theorem processKey_next_inv (fetch : Chars → FetchResult) (s e : Int)
    (out : List OutLine) (k : Chars) (out2 : List OutLine)
    (hp : processKey fetch s e out k = StepOut.next out2) :
    ∀ r, OutLine.data r ∈ out2 →
      OutLine.data r ∈ out ∨ (r.ty = wantedType ∧ s ≤ r.ts ∧ r.ts ≤ e) := by
  intro r hr
  unfold processKey at hp
  cases hf : fetch k <;> simp only [hf] at hp
  case clientError =>
    injection hp with h2; subst h2; exact Or.inl hr
  case gzipFail => simp at hp
  case jsonFail =>
    injection hp with h2; subst h2; exact Or.inl hr
  case parsed df =>
    by_cases hts : df.hasTs = false
    · rw [if_pos hts] at hp; simp at hp
    · rw [if_neg hts] at hp
      cases hl : df.rows.getLast? <;> cases hh : df.rows.head? <;>
        simp only [hl, hh] at hp
      · simp at hp
      · simp at hp
      · simp at hp
      · rename_i lastR firstR
        by_cases h1 : lastR.ts < s
        · rw [if_pos h1] at hp; injection hp with h2; subst h2; exact Or.inl hr
        · rw [if_neg h1] at hp
          by_cases h2 : firstR.ts > e
          · rw [if_pos h2] at hp; simp at hp
          · rw [if_neg h2] at hp
            by_cases h3 : df.hasTy = false
            · rw [if_pos h3] at hp; simp at hp
            · rw [if_neg h3] at hp
              injection hp with h4
              subst h4
              rcases mem_writeBatch r _ out hr with h5 | h5
              · exact Or.inl h5
              · right
                rw [List.mem_filter] at h5
                obtain ⟨h6, h7⟩ := h5
                rw [List.mem_filter] at h6
                obtain ⟨_, h8⟩ := h6
                simp only [Bool.and_eq_true, decide_eq_true_eq] at h7
                exact ⟨by simpa using h8, h7.1, h7.2⟩

theorem drain_filter_inv (fetch : Chars → FetchResult) (s e : Int)
    (keys : List Chars) :
    ∀ out, (∀ r, OutLine.data r ∈ out → r.ty = wantedType ∧ s ≤ r.ts ∧ r.ts ≤ e) →
    ∀ r, OutLine.data r ∈ (drain fetch s e keys out).output →
      r.ty = wantedType ∧ s ≤ r.ts ∧ r.ts ≤ e := by
  induction keys with
  | nil => intro out hinv r hr; exact hinv r hr
  | cons k ks ih =>
    intro out hinv r hr
    rw [drain] at hr
    cases hp : processKey fetch s e out k <;> rw [hp] at hr
    case next out2 =>
      refine ih out2 ?_ r hr
      intro r2 hr2
      rcases processKey_next_inv fetch s e out k out2 hp r2 hr2 with h | h
      · exact hinv r2 h
      · exact h
    case stop out2 =>
      have : out2 = out := by
        unfold processKey at hp
        cases hf : fetch k <;> simp only [hf] at hp
        case clientError => simp at hp
        case gzipFail => simp at hp
        case jsonFail => simp at hp
        case parsed df =>
          by_cases hts : df.hasTs = false
          · rw [if_pos hts] at hp; simp at hp
          · rw [if_neg hts] at hp
            cases hl : df.rows.getLast? <;> cases hh : df.rows.head? <;>
              simp only [hl, hh] at hp
            · simp at hp
            · simp at hp
            · simp at hp
            · rename_i lastR firstR
              by_cases h1 : lastR.ts < s
              · rw [if_pos h1] at hp; simp at hp
              · rw [if_neg h1] at hp
                by_cases h2 : firstR.ts > e
                · rw [if_pos h2] at hp
                  injection hp with h3
                  exact h3.symm
                · rw [if_neg h2] at hp
                  by_cases h3 : df.hasTy = false
                  · rw [if_pos h3] at hp; simp at hp
                  · rw [if_neg h3] at hp; simp at hp
      subst this
      exact hinv r hr
    case crash e2 out2 =>
      have : out2 = out := by
        unfold processKey at hp
        cases hf : fetch k <;> simp only [hf] at hp
        case clientError => simp at hp
        case gzipFail =>
          injection hp with h2 h3; exact h3.symm
        case jsonFail => simp at hp
        case parsed df =>
          by_cases hts : df.hasTs = false
          · rw [if_pos hts] at hp
            injection hp with h2 h3; exact h3.symm
          · rw [if_neg hts] at hp
            cases hl : df.rows.getLast? <;> cases hh : df.rows.head? <;>
              simp only [hl, hh] at hp
            · injection hp with h2 h3; exact h3.symm
            · injection hp with h2 h3; exact h3.symm
            · injection hp with h2 h3; exact h3.symm
            · rename_i lastR firstR
              by_cases h1 : lastR.ts < s
              · rw [if_pos h1] at hp; simp at hp
              · rw [if_neg h1] at hp
                by_cases h2 : firstR.ts > e
                · rw [if_pos h2] at hp; simp at hp
                · rw [if_neg h2] at hp
                  by_cases h3 : df.hasTy = false
                  · rw [if_pos h3] at hp
                    injection hp with h4 h5; exact h5.symm
                  · rw [if_neg h3] at hp; simp at hp
      subst this
      exact hinv r hr

/-- C3: filtering postcondition.  Every record emitted into the output
table by `retrieve_objects` has `Type` equal to the wanted event kind and a
`Timestamp` in the closed window `[start, endT]`; no other record ever
appears in the output. -/
theorem c3_filtering_postcondition (fetch : Chars → FetchResult)
    (s e : Int) (keys : List Chars) (prevFile : List OutLine) (r : Rec)
    (hr : OutLine.data r ∈ (retrieve_objects fetch s e keys prevFile).output) :
    r.ty = wantedType ∧ s ≤ r.ts ∧ r.ts ≤ e :=
  drain_filter_inv fetch s e keys [] (by intro r2 hr2; cases hr2) r hr

/-- C3 witness: in a run that emits the record `(5, OrderTradeReportEvent)`
under window `[0, 10]`, the theorem yields its window and type facts. -/
theorem c3_witness :
    (⟨5, wantedType⟩ : Rec).ty = wantedType ∧
    (0 : Int) ≤ (⟨5, wantedType⟩ : Rec).ts ∧ (⟨5, wantedType⟩ : Rec).ts ≤ 10 :=
  c3_filtering_postcondition
    (fun _ => FetchResult.parsed ⟨true, true, [⟨5, wantedType⟩]⟩)
    0 10 [['k']] [] ⟨5, wantedType⟩ (by decide)

/-- C4: global early termination.  When the next candidate key parses to an
object whose first record's timestamp exceeds the window end (with records
within the object covering `first.ts ≤ last.ts` and a valid window
`s ≤ e`), the loop breaks: no further key is drained and the output is left
exactly as it was. -/
theorem c4_global_early_termination (fetch : Chars → FetchResult)
    (s e : Int) (k : Chars) (ks : List Chars) (out : List OutLine) (df : DF)
    (firstR lastR : Rec)
    (hf : fetch k = FetchResult.parsed df) (hts : df.hasTs = true)
    (hhead : df.rows.head? = some firstR)
    (hlast : df.rows.getLast? = some lastR)
    (hse : s ≤ e) (hmono : firstR.ts ≤ lastR.ts) (hgt : firstR.ts > e) :
    drain fetch s e (k :: ks) out = RunResult.finished out := by
  have hnotlt : ¬ lastR.ts < s := by omega
  have hp : processKey fetch s e out k = StepOut.stop out := by
    unfold processKey
    simp only [hf]
    rw [if_neg (by simp [hts])]
    simp only [hlast, hhead]
    rw [if_neg hnotlt, if_pos hgt]
  simp only [drain, hp]

/-- C4 witness: a first record at time 20 with window `[0, 10]` stops the
run before the second key, leaving the output untouched. -/
theorem c4_witness :
    drain (fun _ => FetchResult.parsed ⟨true, true, [⟨20, wantedType⟩]⟩)
      0 10 [['k'], ['l']] [] = RunResult.finished [] :=
  c4_global_early_termination
    (fun _ => FetchResult.parsed ⟨true, true, [⟨20, wantedType⟩]⟩)
    0 10 ['k'] [['l']] [] ⟨true, true, [⟨20, wantedType⟩]⟩
    ⟨20, wantedType⟩ ⟨20, wantedType⟩ rfl rfl rfl rfl
    (by decide) (by decide) (by decide)

/-- The output table carries the header at most once, and only as its very
first line. -/
def headerOnce (out : List OutLine) : Prop :=
  out = [] ∨ ∃ ds, out = OutLine.header :: ds ∧ ∀ l ∈ ds, l ≠ OutLine.header

theorem writeBatch_headerOnce (rows : List Rec) (out : List OutLine)
    (h : headerOnce out) : headerOnce (writeBatch rows out) := by
  unfold writeBatch
  by_cases h1 : rows.isEmpty
  · rw [if_pos h1]; exact h
  · rw [if_neg h1]
    by_cases h2 : out.isEmpty
    · rw [if_pos h2]
      right
      refine ⟨rows.map OutLine.data, rfl, ?_⟩
      intro l hl
      rw [List.mem_map] at hl
      obtain ⟨x, _, he⟩ := hl
      subst he
      simp
    · rw [if_neg h2]
      rcases h with h | ⟨ds, rfl, hds⟩
      · exact absurd (by rw [h]; rfl) h2
      · right
        refine ⟨ds ++ rows.map OutLine.data, by simp, ?_⟩
        intro l hl
        rcases List.mem_append.mp hl with h3 | h3
        · exact hds l h3
        · rw [List.mem_map] at h3
          obtain ⟨x, _, he⟩ := h3
          subst he
          simp

theorem processKey_out_cases (fetch : Chars → FetchResult) (s e : Int)
    (out : List OutLine) (k : Chars) :
    (∃ rows, processKey fetch s e out k = StepOut.next (writeBatch rows out)) ∨
    processKey fetch s e out k = StepOut.next out ∨
    processKey fetch s e out k = StepOut.stop out ∨
    ∃ er, processKey fetch s e out k = StepOut.crash er out := by
  cases hfk : fetch k
  case clientError =>
    exact Or.inr (Or.inl (by unfold processKey; rw [hfk]))
  case gzipFail =>
    exact Or.inr (Or.inr (Or.inr ⟨PyErr.osError, by unfold processKey; rw [hfk]⟩))
  case jsonFail =>
    exact Or.inr (Or.inl (by unfold processKey; rw [hfk]))
  case parsed df =>
    have hpk : processKey fetch s e out k =
        (if df.hasTs = false then StepOut.crash PyErr.nameError out
        else
          match df.rows.getLast?, df.rows.head? with
          | some lastR, some firstR =>
            if lastR.ts < s then StepOut.next out
            else if firstR.ts > e then StepOut.stop out
            else if df.hasTy = false then StepOut.crash PyErr.nameError out
            else
              StepOut.next (writeBatch
                ((df.rows.filter (fun r => r.ty == wantedType)).filter
                  (fun r => decide (s ≤ r.ts) && decide (r.ts ≤ e))) out)
          | _, _ => StepOut.crash PyErr.indexError out) := by
      unfold processKey; rw [hfk]
    rw [hpk]
    by_cases h1 : df.hasTs = false
    · rw [if_pos h1]; exact Or.inr (Or.inr (Or.inr ⟨_, rfl⟩))
    · rw [if_neg h1]
      cases hl : df.rows.getLast? <;> cases hh : df.rows.head? <;>
        simp only [hl, hh]
      · exact Or.inr (Or.inr (Or.inr ⟨_, rfl⟩))
      · exact Or.inr (Or.inr (Or.inr ⟨_, rfl⟩))
      · exact Or.inr (Or.inr (Or.inr ⟨_, rfl⟩))
      · rename_i lastR firstR
        by_cases h2 : lastR.ts < s
        · rw [if_pos h2]; exact Or.inr (Or.inl rfl)
        · rw [if_neg h2]
          by_cases h3 : firstR.ts > e
          · rw [if_pos h3]; exact Or.inr (Or.inr (Or.inl rfl))
          · rw [if_neg h3]
            by_cases h4 : df.hasTy = false
            · rw [if_pos h4]; exact Or.inr (Or.inr (Or.inr ⟨_, rfl⟩))
            · rw [if_neg h4]; exact Or.inl ⟨_, rfl⟩

theorem drain_headerOnce (fetch : Chars → FetchResult) (s e : Int)
    (keys : List Chars) :
    ∀ out, headerOnce out → headerOnce ((drain fetch s e keys out).output) := by
  induction keys with
  | nil => intro out h; exact h
  | cons k ks ih =>
    intro out h
    rcases processKey_out_cases fetch s e out k with ⟨rows, hp⟩ | hp | hp | ⟨er, hp⟩ <;>
      simp only [drain, hp]
    · exact ih _ (writeBatch_headerOnce rows out h)
    · exact ih _ h
    · exact h
    · exact h

/-- C7: header-once invariant.  Appending an empty batch writes nothing;
the output file is truncated before any write of the run; and across an
entire run the output contains the column header exactly once — as the
first line, before any data row, never repeated — or not at all when no
row is emitted. -/
theorem c7_header_once :
    (∀ out, writeBatch [] out = out) ∧
    (∀ prevFile, truncateFile prevFile = []) ∧
    (∀ fetch s e keys prevFile,
      headerOnce ((retrieve_objects fetch s e keys prevFile).output)) :=
  ⟨fun _ => rfl, fun _ => rfl,
   fun fetch s e keys _ => drain_headerOnce fetch s e keys [] (Or.inl rfl)⟩

/-- C7 witness: the header-once invariant evaluated on a concrete run. -/
theorem c7_witness :
    headerOnce ((retrieve_objects
      (fun _ => FetchResult.parsed ⟨true, true, [⟨5, wantedType⟩]⟩)
      0 10 [['k']] []).output) :=
  c7_header_once.2.2 (fun _ => FetchResult.parsed ⟨true, true, [⟨5, wantedType⟩]⟩)
    0 10 [['k']] []

/-- C9: determinism / idempotence.  The run's result does not depend on the
previous content of `output.csv` (the file is truncated first), so two
complete runs over the same archive — in particular a rerun on the file the
first run produced — yield byte-identical output tables. -/
theorem c9_idempotent_rerun :
    (∀ (fetch : Chars → FetchResult) (s e : Int) (keys : List Chars)
      (f1 f2 : List OutLine),
      retrieve_objects fetch s e keys f1 = retrieve_objects fetch s e keys f2) ∧
    (∀ (fetch : Chars → FetchResult) (s e : Int) (keys : List Chars)
      (f0 : List OutLine),
      retrieve_objects fetch s e keys
          ((retrieve_objects fetch s e keys f0).output) =
        retrieve_objects fetch s e keys f0) :=
  ⟨fun _ _ _ _ _ _ => rfl, fun _ _ _ _ _ => rfl⟩

/-- C9 witness: the rerun identity evaluated on a concrete run. -/
theorem c9_witness :
    retrieve_objects (fun _ => FetchResult.clientError) 0 10 [['k']]
        ((retrieve_objects (fun _ => FetchResult.clientError) 0 10 [['k']]
          [OutLine.header]).output) =
      retrieve_objects (fun _ => FetchResult.clientError) 0 10 [['k']]
        [OutLine.header] :=
  c9_idempotent_rerun.2 (fun _ => FetchResult.clientError) 0 10 [['k']]
    [OutLine.header]

/-- Outcome messages printed by `main` (lines 85-113). -/
inductive MainMsg where
  | missingBucket
  | missingPfx
  | missingTimes
  | invalidWindow
  | listingFailed (e : PyErr)
  | completed
  | abortedRun (e : PyErr)
  deriving DecidableEq

/-- Observable outcome of one `main` invocation: the printed outcome,
whether any object-store call (listing or fetch) was made, and the final
content of `output.csv`. -/
structure MainOut where
  msg : MainMsg
  storeTouched : Bool
  file : List OutLine
  deriving DecidableEq

/-- Python truthiness of an optional integer argument: `argparse` leaves an
absent argument as `None` (falsy) and the value `0` is falsy as well. -/
def truthy : Option Int → Bool
  | none => false
  | some v => v != 0

/-- Model of `main` (lines 85-113): the bucket and prefix presence checks,
the `if args.start_time and args.end_time` truthiness check, the window
validation, then `get_s3_keys` followed by `retrieve_objects`. -/
def main (bucket pfx : Chars) (startArg endArg : Option Int)
    (pages : List Page) (fetch : Chars → FetchResult)
    (file0 : List OutLine) : MainOut :=
  if bucket.isEmpty then ⟨MainMsg.missingBucket, false, file0⟩
  else if pfx.isEmpty then ⟨MainMsg.missingPfx, false, file0⟩
  else if truthy startArg && truthy endArg then
    let s := startArg.getD 0
    let e := endArg.getD 0
    if s ≥ e then ⟨MainMsg.invalidWindow, false, file0⟩
    else
      match get_s3_keys pages s with
      | Except.error er => ⟨MainMsg.listingFailed er, true, file0⟩
      | Except.ok keys =>
        match retrieve_objects fetch s e keys file0 with
        | RunResult.finished out => ⟨MainMsg.completed, true, out⟩
        | RunResult.aborted er out => ⟨MainMsg.abortedRun er, true, out⟩
  else ⟨MainMsg.missingTimes, false, file0⟩

/-- C8 counterexample: the supplied pair `start_time=5`, `end_time=0`
satisfies `windowStart ≥ windowEnd`, but because Python's `0` is falsy the
`if args.start_time and args.end_time` check sends it to the
missing-argument branch, not to the invalid-window error (no I/O happens in
either case). -/
theorem c8_zero_end_time_cex :
    main ['b'] ['p'] (some 5) (some 0) []
        (fun _ => FetchResult.clientError) [] =
      ⟨MainMsg.missingTimes, false, []⟩ ∧
    (main ['b'] ['p'] (some 5) (some 0) []
        (fun _ => FetchResult.clientError) []).msg ≠ MainMsg.invalidWindow :=
  ⟨rfl, by decide⟩

/-- C8 (amended): for every supplied pair of nonzero timestamps with
`windowStart ≥ windowEnd` (and non-empty bucket and prefix), `main` fails
immediately with the invalid-window error, making no object-store call and
leaving the output file untouched; a supplied timestamp equal to `0` is
treated as missing by the truthiness check and yields the missing-argument
message instead — still before any I/O. -/
theorem c8_invalid_window_fail_fast (bucket pfx : Chars) (s e : Int)
    (pages : List Page) (fetch : Chars → FetchResult) (file0 : List OutLine)
    (hb : bucket ≠ []) (hpfx : pfx ≠ []) (hs : s ≠ 0) (he : e ≠ 0)
    (hw : s ≥ e) :
    main bucket pfx (some s) (some e) pages fetch file0 =
      ⟨MainMsg.invalidWindow, false, file0⟩ := by
  have hb2 : ¬ bucket.isEmpty = true := by
    simpa [List.isEmpty_iff] using hb
  have hp2 : ¬ pfx.isEmpty = true := by
    simpa [List.isEmpty_iff] using hpfx
  have htr : (truthy (some s) && truthy (some e)) = true := by
    simp [truthy, hs, he]
  unfold main
  rw [if_neg hb2, if_neg hp2, if_pos htr]
  simp only [Option.getD_some]
  rw [if_pos hw]

/-- C8 witness: `start_time=5`, `end_time=3` fails fast with the
invalid-window error, no store call, file untouched. -/
theorem c8_witness :
    main ['b'] ['p'] (some 5) (some 3) []
        (fun _ => FetchResult.clientError) [OutLine.header] =
      ⟨MainMsg.invalidWindow, false, [OutLine.header]⟩ :=
  c8_invalid_window_fail_fast ['b'] ['p'] 5 3 []
    (fun _ => FetchResult.clientError) [OutLine.header]
    (by decide) (by decide) (by decide) (by decide) (by decide)

end PySample
